import Mathlib

/-!
# Verification of the LC29H RTK base station core

Shallow embedding of the RTCM3 framing pipeline (`rtcm_parser.py`,
`gps_serial.py`) and the NTRIP caster request handling and broadcast
(`ntrip_server.py`), with theorems settling the specified properties.

Bytes are modelled as natural numbers; where a property depends on bytes
being in `0..255` (as Python's `bytes` type guarantees) the hypothesis is
made explicit.
-/

set_option maxRecDepth 8000

namespace LC29H

/-- A byte list: every element is `< 256`, as in Python's `bytes`. -/
def IsBytes (l : List Nat) : Prop := ∀ x ∈ l, x < 256

/-! ## CRC24Q (`RTCM3Parser._calc_crc24q`)

```python
crc = 0
for byte in data:
    crc ^= (byte << 16)
    for _ in range(8):
        crc <<= 1
        if crc & 0x1000000:
            crc ^= 0x1864CFB
return crc & 0xFFFFFF
```
-/

/-- One inner-loop step: shift left one bit and reduce by the polynomial
when bit 24 is set. -/
def crcShift (crc : Nat) : Nat :=
  let c := crc <<< 1
  if c &&& 0x1000000 ≠ 0 then c ^^^ 0x1864CFB else c

/-- Process one byte: XOR it in at bit 16, then run the inner loop
8 times (`for _ in range(8)` as a fold over `List.range 8`). -/
def crcByte (crc b : Nat) : Nat :=
  (List.range 8).foldl (fun c _ => crcShift c) (crc ^^^ (b <<< 16))

/-- `RTCM3Parser._calc_crc24q` over a byte list. -/
def calc_crc24q (data : List Nat) : Nat :=
  (data.foldl crcByte 0) &&& 0xFFFFFF

/-- Big-endian 24-bit value of the last three bytes of a frame
(`(data[-3] << 16) | (data[-2] << 8) | data[-1]`). -/
def trailer (data : List Nat) : Nat :=
  (data.getD (data.length - 3) 0) <<< 16 |||
  (data.getD (data.length - 2) 0) <<< 8 |||
  data.getD (data.length - 1) 0

/-- `RTCM3Parser._verify_crc24q`: compare the trailer against the CRC of
everything but the last three bytes (`data[:-3]`). -/
def verify_crc24q (data : List Nat) : Bool :=
  if data.length < 6 then false
  else trailer data == calc_crc24q (data.take (data.length - 3))

/-! ## `RTCM3Parser.validate_message` -/

/-- The 10-bit payload length read from bytes 1 and 2:
`((data[1] & 0x03) << 8) | data[2]`. -/
def payloadLen (data : List Nat) : Nat :=
  ((data.getD 1 0) &&& 0x03) <<< 8 ||| data.getD 2 0

/-- The 12-bit message type read from bytes 3 and 4:
`(data[3] << 4) | (data[4] >> 4)`. -/
def msgType (data : List Nat) : Nat :=
  (data.getD 3 0) <<< 4 ||| (data.getD 4 0) >>> 4

/-- `RTCM3Parser.validate_message`: returns `(is_valid, message_type,
message_length)`. -/
def validate_message (data : List Nat) : Bool × Nat × Nat :=
  if data.length < 6 then (false, 0, 0)
  else if data.getD 0 0 ≠ 0xD3 then (false, 0, 0)
  else
    let msg_len := payloadLen data
    let msg_type := if 5 ≤ data.length then msgType data else 0
    if data.length ≠ msg_len + 6 then (false, msg_type, msg_len)
    else if ¬ verify_crc24q data then (false, msg_type, msg_len)
    else (true, msg_type, msg_len)

/-! ## `RTCMMessageBuffer`

```python
def _extract_messages(self):
    while len(self.buffer) >= 6:
        preamble_idx = self.buffer.find(0xD3)
        if preamble_idx == -1:
            self.buffer.clear(); return
        if preamble_idx > 0:
            self.buffer = self.buffer[preamble_idx:]
        if len(self.buffer) < 3: return
        msg_len = ((self.buffer[1] & 0x03) << 8) | self.buffer[2]
        total_len = msg_len + 6
        if len(self.buffer) < total_len: return
        msg_data = bytes(self.buffer[:total_len])
        self.buffer = self.buffer[total_len:]
        is_valid, msg_type, _ = RTCM3Parser.validate_message(msg_data)
        if is_valid: self.messages.append(msg_data)
```
-/

/-- `bytearray.find(0xD3)`: index of the first `0xD3`, if any. -/
def findD3 : List Nat → Option Nat
  | [] => none
  | b :: rest => if b = 0xD3 then some 0 else (findD3 rest).map (· + 1)

/-- The suffix of a byte list starting at its first `0xD3`
(empty when there is none).  Two framer buffers that agree on this
suffix behave identically from the next feed on. -/
def canon : List Nat → List Nat
  | [] => []
  | b :: rest => if b = 0xD3 then b :: rest else canon rest

/-- The loop of `_extract_messages`, with explicit fuel.  Each
iteration that does not return consumes at least 6 buffered bytes, so
`fuel = buf.length` always suffices; the fuel only makes the recursion
structural.  Returns the final buffer and the extracted (valid)
messages in order. -/
def extractGo : Nat → List Nat → List Nat × List (List Nat)
  | 0, buf => (buf, [])
  | fuel + 1, buf =>
    if buf.length < 6 then (buf, [])
    else match findD3 buf with
      | none => ([], [])
      | some idx =>
        let b1 := buf.drop idx
        if b1.length < 3 then (b1, [])
        else
          let total := payloadLen b1 + 6
          if b1.length < total then (b1, [])
          else
            let msg := b1.take total
            let res := extractGo fuel (b1.drop total)
            if (validate_message msg).1 then (res.1, msg :: res.2) else res

/-- `RTCMMessageBuffer._extract_messages` on a buffer: the final buffer
and the messages appended, in order. -/
def extract (buf : List Nat) : List Nat × List (List Nat) :=
  extractGo buf.length buf

/-- The framer's state: `self.buffer` and `self.messages`. -/
structure MessageBuffer where
  buffer : List Nat
  messages : List (List Nat)
  deriving DecidableEq, Repr

/-- The freshly-constructed framer. -/
def initBuffer : MessageBuffer := ⟨[], []⟩

/-- `RTCMMessageBuffer.add_data`: append the chunk to the buffer and
run extraction. -/
def addData (st : MessageBuffer) (data : List Nat) : MessageBuffer :=
  let r := extract (st.buffer ++ data)
  ⟨r.1, st.messages ++ r.2⟩

/-- Feed a list of chunks to a fresh framer. -/
def runFramer (chunks : List (List Nat)) : MessageBuffer :=
  chunks.foldl addData initBuffer

/-! ### Fuel elimination -/

theorem extractGo_congr : ∀ (f g : Nat) (buf : List Nat),
    buf.length ≤ f → buf.length ≤ g → extractGo f buf = extractGo g buf := by
  intro f
  induction f with
  | zero =>
    intro g buf hf _
    have hb : buf = [] := List.length_eq_zero.mp (Nat.le_zero.mp hf)
    subst hb
    cases g with
    | zero => rfl
    | succ g => simp [extractGo]
  | succ f ih =>
    intro g buf hf hg
    cases g with
    | zero =>
      have hb : buf = [] := List.length_eq_zero.mp (Nat.le_zero.mp hg)
      subst hb
      simp [extractGo]
    | succ g =>
      show extractGo (f + 1) buf = extractGo (g + 1) buf
      simp only [extractGo]
      split
      · rfl
      · rename_i hlen
        cases hfd : findD3 buf with
        | none => rfl
        | some idx =>
          simp only []
          split
          · rfl
          · split
            · rfl
            · rename_i h3 htot
              have hdrop : ((buf.drop idx).drop (payloadLen (buf.drop idx) + 6)).length
                  ≤ buf.length - 6 := by
                have h1 : (buf.drop idx).length ≤ buf.length := by
                  simp [List.length_drop]
                simp only [List.length_drop] at *
                omega
              have hl6 : 6 ≤ buf.length := by omega
              rw [ih g _ (by omega) (by omega)]

theorem extract_eq (buf : List Nat) :
    extract buf =
      (if buf.length < 6 then (buf, [])
       else match findD3 buf with
        | none => ([], [])
        | some idx =>
          let b1 := buf.drop idx
          if b1.length < 3 then (b1, [])
          else
            let total := payloadLen b1 + 6
            if b1.length < total then (b1, [])
            else
              let msg := b1.take total
              let res := extract (b1.drop total)
              if (validate_message msg).1 then (res.1, msg :: res.2) else res) := by
  have hfu : extract buf = extractGo (buf.length + 1) buf :=
    extractGo_congr buf.length (buf.length + 1) buf (le_refl _) (Nat.le_succ _)
  rw [hfu]
  simp only [extractGo]
  split
  · rfl
  · rename_i hlen
    cases hfd : findD3 buf with
    | none => rfl
    | some idx =>
      simp only []
      split
      · rfl
      · split
        · rfl
        · rename_i h3 htot
          have hrest : ((buf.drop idx).drop (payloadLen (buf.drop idx) + 6)).length
              ≤ buf.length := by
            simp only [List.length_drop]
            omega
          rw [show extractGo buf.length ((buf.drop idx).drop (payloadLen (buf.drop idx) + 6)) =
              extract ((buf.drop idx).drop (payloadLen (buf.drop idx) + 6)) from
            extractGo_congr _ _ _ hrest (le_refl _)]

/-! ### `findD3` and `canon` -/

theorem findD3_cons_D3 (t : List Nat) : findD3 (0xD3 :: t) = some 0 := by
  simp [findD3]

theorem canon_cons_D3 (t : List Nat) : canon (0xD3 :: t) = 0xD3 :: t := by
  simp [canon]

theorem findD3_none_notMem : ∀ {l : List Nat}, findD3 l = none → 0xD3 ∉ l := by
  intro l
  induction l with
  | nil => simp
  | cons b rest ih =>
    intro h
    by_cases hb : b = 0xD3
    · simp [findD3, hb] at h
    · simp only [findD3, if_neg hb] at h
      cases hfr : findD3 rest with
      | none =>
        simp only [List.mem_cons, not_or]
        exact ⟨fun he => hb he.symm, ih hfr⟩
      | some j => rw [hfr] at h; simp at h

theorem findD3_some_lt : ∀ {l : List Nat} {i : Nat}, findD3 l = some i → i < l.length := by
  intro l
  induction l with
  | nil => simp [findD3]
  | cons b rest ih =>
    intro i h
    by_cases hb : b = 0xD3
    · simp only [findD3, if_pos hb, Option.some.injEq] at h
      subst h
      simp
    · simp only [findD3, if_neg hb] at h
      cases hfr : findD3 rest with
      | none => rw [hfr] at h; simp at h
      | some j =>
        rw [hfr] at h
        simp only [Option.map_some', Option.some.injEq] at h
        have := ih hfr
        simp only [List.length_cons]
        omega

theorem findD3_drop : ∀ {l : List Nat} {i : Nat}, findD3 l = some i →
    ∃ t, l.drop i = 0xD3 :: t := by
  intro l
  induction l with
  | nil => simp [findD3]
  | cons b rest ih =>
    intro i h
    by_cases hb : b = 0xD3
    · simp only [findD3, if_pos hb, Option.some.injEq] at h
      subst h
      exact ⟨rest, by simp [hb]⟩
    · simp only [findD3, if_neg hb] at h
      cases hfr : findD3 rest with
      | none => rw [hfr] at h; simp at h
      | some j =>
        rw [hfr] at h
        simp only [Option.map_some', Option.some.injEq] at h
        subst h
        obtain ⟨t, ht⟩ := ih hfr
        exact ⟨t, by simpa using ht⟩

theorem canon_of_findD3_none : ∀ {l : List Nat}, findD3 l = none → canon l = [] := by
  intro l
  induction l with
  | nil => simp [canon]
  | cons b rest ih =>
    intro h
    by_cases hb : b = 0xD3
    · simp [findD3, hb] at h
    · simp only [findD3, if_neg hb] at h
      cases hfr : findD3 rest with
      | none => simp [canon, hb, ih hfr]
      | some j => rw [hfr] at h; simp at h

theorem canon_of_findD3_some : ∀ {l : List Nat} {i : Nat}, findD3 l = some i →
    canon l = l.drop i := by
  intro l
  induction l with
  | nil => simp [findD3]
  | cons b rest ih =>
    intro i h
    by_cases hb : b = 0xD3
    · simp only [findD3, if_pos hb, Option.some.injEq] at h
      subst h
      simp [canon, hb]
    · simp only [findD3, if_neg hb] at h
      cases hfr : findD3 rest with
      | none => rw [hfr] at h; simp at h
      | some j =>
        rw [hfr] at h
        simp only [Option.map_some', Option.some.injEq] at h
        subst h
        simp [canon, hb, ih hfr]

theorem findD3_append_some {l : List Nat} {i : Nat} (d : List Nat)
    (h : findD3 l = some i) : findD3 (l ++ d) = some i := by
  induction l generalizing i with
  | nil => simp [findD3] at h
  | cons b rest ih =>
    by_cases hb : b = 0xD3
    · simp only [findD3, if_pos hb, Option.some.injEq] at h
      simp [List.cons_append, findD3, hb, h]
    · simp only [findD3, if_neg hb] at h
      cases hfr : findD3 rest with
      | none => rw [hfr] at h; simp at h
      | some j =>
        rw [hfr] at h
        simp only [Option.map_some', Option.some.injEq] at h
        rw [show (b :: rest) ++ d = b :: (rest ++ d) from rfl,
          show findD3 (b :: (rest ++ d)) =
            if b = 0xD3 then some 0 else (findD3 (rest ++ d)).map (· + 1) from rfl,
          if_neg hb, ih hfr]
        simp [h]

theorem findD3_append_none {l : List Nat} (d : List Nat)
    (h : findD3 l = none) : findD3 (l ++ d) = (findD3 d).map (· + l.length) := by
  induction l with
  | nil => simp
  | cons b rest ih =>
    by_cases hb : b = 0xD3
    · simp [findD3, hb] at h
    · simp only [findD3, if_neg hb] at h
      have hfr : findD3 rest = none := by
        cases hfr : findD3 rest with
        | none => rfl
        | some j => rw [hfr] at h; simp at h
      rw [show (b :: rest) ++ d = b :: (rest ++ d) from rfl,
        show findD3 (b :: (rest ++ d)) =
          if b = 0xD3 then some 0 else (findD3 (rest ++ d)).map (· + 1) from rfl,
        if_neg hb, ih hfr, List.length_cons]
      cases findD3 d with
      | none => rfl
      | some j =>
        simp only [Option.map_map, Option.map_some', Option.some.injEq]
        omega

theorem canon_append_of_some {l : List Nat} {i : Nat} (d : List Nat)
    (h : findD3 l = some i) : canon (l ++ d) = canon l ++ d := by
  rw [canon_of_findD3_some (findD3_append_some d h), canon_of_findD3_some h,
    List.drop_append_of_le_length (Nat.le_of_lt (findD3_some_lt h))]

theorem canon_append_of_none {l : List Nat} (d : List Nat)
    (h : findD3 l = none) : canon (l ++ d) = canon d := by
  cases hd : findD3 d with
  | none =>
    have : findD3 (l ++ d) = none := by
      rw [findD3_append_none d h, hd]; rfl
    rw [canon_of_findD3_none this, canon_of_findD3_none hd]
  | some j =>
    have : findD3 (l ++ d) = some (j + l.length) := by
      rw [findD3_append_none d h, hd]; rfl
    rw [canon_of_findD3_some this, canon_of_findD3_some hd,
      List.drop_append_eq_append_drop]
    simp

theorem canon_append (l d : List Nat) (h : canon l ≠ []) :
    canon (l ++ d) = canon l ++ d := by
  cases hfd : findD3 l with
  | none => exact absurd (canon_of_findD3_none hfd) h
  | some i => exact canon_append_of_some d hfd

/-! ### Trim decomposition of `extract` -/

/-- The body of the extraction loop after the buffer has been trimmed to
start at a preamble. -/
def extractAt (s : List Nat) : List Nat × List (List Nat) :=
  if s.length < 3 then (s, [])
  else
    let total := payloadLen s + 6
    if s.length < total then (s, [])
    else
      let msg := s.take total
      let res := extract (s.drop total)
      if (validate_message msg).1 then (res.1, msg :: res.2) else res

theorem extract_short {buf : List Nat} (h : buf.length < 6) :
    extract buf = (buf, []) := by
  rw [extract_eq, if_pos h]

theorem extract_noD3 {buf : List Nat} (h6 : ¬ buf.length < 6)
    (h : findD3 buf = none) : extract buf = ([], []) := by
  rw [extract_eq, if_neg h6, h]

theorem extract_trim {buf : List Nat} {idx : Nat} (h6 : ¬ buf.length < 6)
    (h : findD3 buf = some idx) : extract buf = extractAt (buf.drop idx) := by
  rw [extract_eq, if_neg h6, h]
  rfl

/-- On a buffer that already starts with the preamble, `extract` is
`extractAt`: either the whole computation is stuck below 6 bytes (and
`extractAt` is stuck below `total ≥ 6`), or the trim is a no-op. -/
theorem extract_headD3 {t : List Nat} :
    extract (0xD3 :: t) = extractAt (0xD3 :: t) := by
  by_cases h6 : (0xD3 :: t).length < 6
  · rw [extract_short h6, extractAt]
    split
    · rfl
    · rw [if_pos (by have := payloadLen (0xD3 :: t); omega)]
  · rw [extract_trim h6 (findD3_cons_D3 t)]
    simp

/-! ### Structural invariants of `extract` -/

theorem getD_lt_of_bytes {l : List Nat} (hb : IsBytes l) (i : Nat) :
    l.getD i 0 < 256 := by
  by_cases h : i < l.length
  · rw [List.getD_eq_getElem l 0 h]
    exact hb _ (List.getElem_mem h)
  · rw [List.getD_eq_default l 0 (by omega)]
    omega

theorem payloadLen_le {l : List Nat} (hb : IsBytes l) : payloadLen l ≤ 1023 := by
  have h1 : (l.getD 1 0) &&& 0x03 ≤ 3 := Nat.and_le_right
  have h2 : l.getD 2 0 < 256 := getD_lt_of_bytes hb 2
  have hs : ((l.getD 1 0) &&& 0x03) <<< 8 < 2 ^ 10 := by
    rw [Nat.shiftLeft_eq]
    omega
  have ho : ((l.getD 1 0) &&& 0x03) <<< 8 ||| l.getD 2 0 < 2 ^ 10 :=
    Nat.or_lt_two_pow hs (by omega)
  have : payloadLen l < 1024 := ho
  omega

theorem bytes_append {a b : List Nat} (ha : IsBytes a) (hb : IsBytes b) :
    IsBytes (a ++ b) := by
  intro x hx
  rcases List.mem_append.mp hx with h | h
  · exact ha x h
  · exact hb x h

theorem bytes_drop {a : List Nat} (ha : IsBytes a) (n : Nat) : IsBytes (a.drop n) :=
  fun x hx => ha x (List.mem_of_mem_drop hx)

theorem extract_props : ∀ (n : Nat) (buf : List Nat), buf.length ≤ n →
    (extract buf).1 <:+ buf ∧
      ∀ m ∈ (extract buf).2, (validate_message m).1 = true ∧ m <:+: buf := by
  intro n
  induction n with
  | zero =>
    intro buf hlen
    have hb : buf = [] := List.length_eq_zero.mp (Nat.le_zero.mp hlen)
    subst hb
    rw [extract_short (by simp)]
    simp
  | succ n ih =>
    intro buf hlen
    by_cases h6 : buf.length < 6
    · rw [extract_short h6]
      simp
    · cases hfd : findD3 buf with
      | none =>
        rw [extract_noD3 h6 hfd]
        simp
      | some idx =>
        rw [extract_trim h6 hfd]
        have hsfx : buf.drop idx <:+ buf := List.drop_suffix idx buf
        simp only [extractAt]
        by_cases h3 : (buf.drop idx).length < 3
        · rw [if_pos h3]
          simp [hsfx]
        · rw [if_neg h3]
          by_cases htot : (buf.drop idx).length < payloadLen (buf.drop idx) + 6
          · rw [if_pos htot]
            simp [hsfx]
          · rw [if_neg htot]
            have hlen' : ((buf.drop idx).drop (payloadLen (buf.drop idx) + 6)).length ≤ n := by
              simp only [List.length_drop]
              omega
            obtain ⟨ihs, ihm⟩ := ih _ hlen'
            have hsfx2 : (extract ((buf.drop idx).drop (payloadLen (buf.drop idx) + 6))).1
                <:+ buf :=
              ihs.trans ((List.drop_suffix _ _).trans hsfx)
            have hinf : ∀ m ∈ (extract ((buf.drop idx).drop (payloadLen (buf.drop idx) + 6))).2,
                (validate_message m).1 = true ∧ m <:+: buf := by
              intro m hm
              obtain ⟨hv, hi⟩ := ihm m hm
              exact ⟨hv, hi.trans (((List.drop_suffix _ _).trans hsfx).isInfix)⟩
            have hmsg : (buf.drop idx).take (payloadLen (buf.drop idx) + 6) <:+: buf := by
              refine List.IsInfix.trans ⟨[], (buf.drop idx).drop (payloadLen (buf.drop idx) + 6), ?_⟩ hsfx.isInfix
              simp
            by_cases hv : (validate_message
                ((buf.drop idx).take (payloadLen (buf.drop idx) + 6))).1 = true
            · rw [if_pos hv]
              refine ⟨hsfx2, ?_⟩
              intro m hm
              rcases List.mem_cons.mp hm with rfl | hm
              · exact ⟨hv, hmsg⟩
              · exact hinf m hm
            · rw [if_neg hv]
              exact ⟨hsfx2, hinf⟩

/-- Every message `extract` emits passes `validate_message`. -/
theorem extract_msgs_valid {buf : List Nat} {m : List Nat}
    (hm : m ∈ (extract buf).2) : (validate_message m).1 = true :=
  ((extract_props buf.length buf (le_refl _)).2 m hm).1

/-- Every message `extract` emits is a contiguous substring of the buffer. -/
theorem extract_msgs_substring {buf : List Nat} {m : List Nat}
    (hm : m ∈ (extract buf).2) : m <:+: buf :=
  ((extract_props buf.length buf (le_refl _)).2 m hm).2

/-- The residual buffer is a suffix of the input buffer. -/
theorem extract_buffer_suffix (buf : List Nat) : (extract buf).1 <:+ buf :=
  (extract_props buf.length buf (le_refl _)).1

/-- On byte input the residual buffer holds at most 1028 bytes. -/
theorem extract_len_le : ∀ (n : Nat) (buf : List Nat), buf.length ≤ n →
    IsBytes buf → (extract buf).1.length ≤ 1028 := by
  intro n
  induction n with
  | zero =>
    intro buf hlen _
    have hb : buf = [] := List.length_eq_zero.mp (Nat.le_zero.mp hlen)
    subst hb
    rw [extract_short (by simp)]
    simp
  | succ n ih =>
    intro buf hlen hbytes
    by_cases h6 : buf.length < 6
    · rw [extract_short h6]
      show buf.length ≤ 1028
      omega
    · cases hfd : findD3 buf with
      | none =>
        rw [extract_noD3 h6 hfd]
        simp
      | some idx =>
        rw [extract_trim h6 hfd]
        have hbytes1 : IsBytes (buf.drop idx) := bytes_drop hbytes idx
        simp only [extractAt]
        by_cases h3 : (buf.drop idx).length < 3
        · rw [if_pos h3]
          show (buf.drop idx).length ≤ 1028
          omega
        · rw [if_neg h3]
          by_cases htot : (buf.drop idx).length < payloadLen (buf.drop idx) + 6
          · rw [if_pos htot]
            have := payloadLen_le hbytes1
            show (buf.drop idx).length ≤ 1028
            omega
          · rw [if_neg htot]
            have hlen' : ((buf.drop idx).drop (payloadLen (buf.drop idx) + 6)).length ≤ n := by
              simp only [List.length_drop]
              omega
            have hrec := ih _ hlen' (bytes_drop hbytes1 _)
            by_cases hv : (validate_message
                ((buf.drop idx).take (payloadLen (buf.drop idx) + 6))).1 = true
            · rw [if_pos hv]
              exact hrec
            · rw [if_neg hv]
              exact hrec

/-! ### Canon determines extraction

Two buffers with the same canon (same suffix from the first preamble)
yield the same messages and canon-equal residual buffers: the bytes in
front of the first `0xD3` are junk that the next trim removes. -/

theorem extract_of_findD3_none {x : List Nat} (h : findD3 x = none) :
    (extract x).2 = [] ∧ canon (extract x).1 = [] := by
  by_cases h6 : x.length < 6
  · rw [extract_short h6]
    exact ⟨rfl, canon_of_findD3_none h⟩
  · rw [extract_noD3 h6 h]
    exact ⟨rfl, rfl⟩

theorem extract_of_short_canon {x : List Nat} {i : Nat} (h : findD3 x = some i)
    (h6 : (x.drop i).length < 6) :
    (extract x).2 = [] ∧ (extract x).1.length < 6 ∧ canon (extract x).1 = x.drop i := by
  obtain ⟨t, ht⟩ := findD3_drop h
  by_cases hx6 : x.length < 6
  · rw [extract_short hx6]
    refine ⟨rfl, hx6, canon_of_findD3_some h⟩
  · rw [extract_trim hx6 h]
    rw [extractAt]
    by_cases h3 : (x.drop i).length < 3
    · rw [if_pos h3]
      exact ⟨rfl, by show (x.drop i).length < 6; omega, by rw [ht, canon_cons_D3]⟩
    · rw [if_neg h3, if_pos (by have := payloadLen (x.drop i); omega)]
      exact ⟨rfl, h6, by rw [ht, canon_cons_D3]⟩

theorem extract_of_long_canon {x : List Nat} {i : Nat} (h : findD3 x = some i)
    (h6 : ¬ (x.drop i).length < 6) : extract x = extractAt (x.drop i) := by
  have hx6 : ¬ x.length < 6 := by
    have : (x.drop i).length ≤ x.length := by
      simp [List.length_drop]
    omega
  exact extract_trim hx6 h

/-- Buffers with equal canon extract the same messages and canon-equal
residual buffers. -/
theorem extract_canon_congr {b c : List Nat} (h : canon b = canon c) :
    (extract b).2 = (extract c).2 ∧ canon (extract b).1 = canon (extract c).1 := by
  cases hfb : findD3 b with
  | none =>
    cases hfc : findD3 c with
    | none =>
      obtain ⟨hm1, hc1⟩ := extract_of_findD3_none hfb
      obtain ⟨hm2, hc2⟩ := extract_of_findD3_none hfc
      rw [hm1, hm2, hc1, hc2]
      exact ⟨rfl, rfl⟩
    | some j =>
      exfalso
      obtain ⟨t, ht⟩ := findD3_drop hfc
      rw [canon_of_findD3_none hfb, canon_of_findD3_some hfc, ht] at h
      exact List.noConfusion h
  | some i =>
    cases hfc : findD3 c with
    | none =>
      exfalso
      obtain ⟨t, ht⟩ := findD3_drop hfb
      rw [canon_of_findD3_none hfc, canon_of_findD3_some hfb, ht] at h
      exact List.noConfusion h.symm
    | some j =>
      have hdrop : b.drop i = c.drop j := by
        rw [← canon_of_findD3_some hfb, ← canon_of_findD3_some hfc, h]
      by_cases h6 : (b.drop i).length < 6
      · obtain ⟨hm1, _, hc1⟩ := extract_of_short_canon hfb h6
        obtain ⟨hm2, _, hc2⟩ := extract_of_short_canon hfc (by rw [← hdrop]; exact h6)
        rw [hm1, hm2, hc1, hc2, hdrop]
        exact ⟨rfl, rfl⟩
      · have e1 := extract_of_long_canon hfb h6
        have e2 := extract_of_long_canon hfc (by rw [← hdrop]; exact h6)
        rw [e1, e2, hdrop]
        exact ⟨rfl, rfl⟩

theorem canon_ne_nil_of_some {l : List Nat} {i : Nat} (h : findD3 l = some i) :
    canon l ≠ [] := by
  obtain ⟨t, ht⟩ := findD3_drop h
  rw [canon_of_findD3_some h, ht]
  exact List.noConfusion

theorem canon_append_congr {a b : List Nat} (h : canon a = canon b) (d : List Nat) :
    canon (a ++ d) = canon (b ++ d) := by
  cases hfa : findD3 a with
  | none =>
    cases hfb : findD3 b with
    | none => rw [canon_append_of_none d hfa, canon_append_of_none d hfb]
    | some j =>
      have hb0 : canon b = [] := by rw [← h, canon_of_findD3_none hfa]
      exact absurd hb0 (canon_ne_nil_of_some hfb)
  | some i =>
    cases hfb : findD3 b with
    | none =>
      have ha0 : canon a = [] := by rw [h, canon_of_findD3_none hfb]
      exact absurd ha0 (canon_ne_nil_of_some hfa)
    | some j =>
      rw [canon_append_of_some d hfa, canon_append_of_some d hfb, h]

/-! ### Incremental feeding -/

theorem extractAt_stuck {s : List Nat}
    (h : s.length < payloadLen s + 6 ∨ s.length < 3) : extractAt s = (s, []) := by
  simp only [extractAt]
  by_cases h3 : s.length < 3
  · rw [if_pos h3]
  · rw [if_neg h3, if_pos (by omega)]

theorem extractAt_step {s : List Nat} (h3 : ¬ s.length < 3)
    (hc : ¬ s.length < payloadLen s + 6) :
    extractAt s =
      if (validate_message (s.take (payloadLen s + 6))).1 then
        ((extract (s.drop (payloadLen s + 6))).1,
          s.take (payloadLen s + 6) :: (extract (s.drop (payloadLen s + 6))).2)
      else extract (s.drop (payloadLen s + 6)) := by
  simp only [extractAt]
  rw [if_neg h3, if_neg hc]

theorem payloadLen_append {s : List Nat} (h : 3 ≤ s.length) (d : List Nat) :
    payloadLen (s ++ d) = payloadLen s := by
  unfold payloadLen
  rw [List.getD_append s d 0 1 (by omega), List.getD_append s d 0 2 (by omega)]

/-- Feeding `buf ++ d` at once gives the same messages as feeding `buf`
and then `d`, and canon-equal residual buffers. -/
theorem extract_append : ∀ (n : Nat) (buf d : List Nat), buf.length ≤ n →
    (extract (buf ++ d)).2 = (extract buf).2 ++ (extract ((extract buf).1 ++ d)).2 ∧
      canon (extract (buf ++ d)).1 = canon (extract ((extract buf).1 ++ d)).1 := by
  intro n
  induction n with
  | zero =>
    intro buf d hlen
    have hb : buf = [] := List.length_eq_zero.mp (Nat.le_zero.mp hlen)
    subst hb
    rw [extract_short (show ([] : List Nat).length < 6 by simp)]
    exact ⟨(List.nil_append _).symm, rfl⟩
  | succ n ih =>
    intro buf d hlen
    by_cases h6 : buf.length < 6
    · rw [extract_short h6]
      exact ⟨(List.nil_append _).symm, rfl⟩
    · cases hfd : findD3 buf with
      | none =>
        rw [extract_noD3 h6 hfd]
        have hcan : canon (buf ++ d) = canon d := canon_append_of_none d hfd
        obtain ⟨hm, hc⟩ := extract_canon_congr hcan
        constructor
        · rw [hm]
          show (extract d).2 = [] ++ (extract ([] ++ d)).2
          rw [List.nil_append, List.nil_append]
        · rw [hc]
          show canon (extract d).1 = canon (extract ([] ++ d)).1
          rw [List.nil_append]
      | some idx =>
        obtain ⟨t, ht⟩ := findD3_drop hfd
        have hidx : idx < buf.length := findD3_some_lt hfd
        have hslen : (buf.drop idx).length = buf.length - idx := List.length_drop idx buf
        have hkey : extract (buf ++ d) = extractAt (buf.drop idx ++ d) := by
          have h6' : ¬ (buf ++ d).length < 6 := by
            rw [List.length_append]
            omega
          rw [extract_trim h6' (findD3_append_some d hfd),
            List.drop_append_of_le_length (Nat.le_of_lt hidx)]
        have hhead : extract (buf.drop idx ++ d) = extractAt (buf.drop idx ++ d) := by
          rw [ht, show (0xD3 :: t) ++ d = 0xD3 :: (t ++ d) from rfl]
          exact extract_headD3
        rw [extract_trim h6 hfd, hkey, ← hhead]
        by_cases hstuck : (buf.drop idx).length < payloadLen (buf.drop idx) + 6 ∨
            (buf.drop idx).length < 3
        · rw [extractAt_stuck hstuck]
          exact ⟨(List.nil_append _).symm, rfl⟩
        · push_neg at hstuck
          obtain ⟨hc, h3⟩ := hstuck
          rw [hhead]
          have h3' : ¬ (buf.drop idx ++ d).length < 3 := by
            rw [List.length_append]
            omega
          have hpl : payloadLen (buf.drop idx ++ d) = payloadLen (buf.drop idx) :=
            payloadLen_append (by omega) d
          have hc' : ¬ (buf.drop idx ++ d).length <
              payloadLen (buf.drop idx ++ d) + 6 := by
            rw [List.length_append, hpl]
            omega
          rw [extractAt_step h3' hc', extractAt_step (by omega) (by omega)]
          have htake : (buf.drop idx ++ d).take (payloadLen (buf.drop idx ++ d) + 6) =
              (buf.drop idx).take (payloadLen (buf.drop idx) + 6) := by
            rw [hpl, List.take_append_of_le_length (by omega)]
          have hdrop2 : (buf.drop idx ++ d).drop (payloadLen (buf.drop idx ++ d) + 6) =
              (buf.drop idx).drop (payloadLen (buf.drop idx) + 6) ++ d := by
            rw [hpl, List.drop_append_of_le_length (by omega)]
          rw [htake, hdrop2]
          have hlen' : ((buf.drop idx).drop (payloadLen (buf.drop idx) + 6)).length ≤ n := by
            rw [List.length_drop, hslen]
            omega
          obtain ⟨ihm, ihc⟩ := ih ((buf.drop idx).drop (payloadLen (buf.drop idx) + 6)) d hlen'
          by_cases hv : (validate_message
              ((buf.drop idx).take (payloadLen (buf.drop idx) + 6))).1 = true
          · rw [if_pos hv, if_pos hv]
            refine ⟨?_, ihc⟩
            show _ :: (extract _).2 = (_ :: (extract _).2) ++ (extract _).2
            rw [List.cons_append, ihm]
          · rw [if_neg hv, if_neg hv]
            exact ⟨ihm, ihc⟩

/-! ### Quiescence and chunking equivalence -/

/-- The residual buffer of an extraction is quiescent: running the
extraction loop on it again makes no progress. -/
theorem extract_idem : ∀ (n : Nat) (buf : List Nat), buf.length ≤ n →
    extract ((extract buf).1) = ((extract buf).1, []) := by
  intro n
  induction n with
  | zero =>
    intro buf hlen
    have hb : buf = [] := List.length_eq_zero.mp (Nat.le_zero.mp hlen)
    subst hb
    rw [extract_short (show ([] : List Nat).length < 6 by simp)]
    exact extract_short (by simp)
  | succ n ih =>
    intro buf hlen
    by_cases h6 : buf.length < 6
    · rw [extract_short h6]
      exact extract_short h6
    · cases hfd : findD3 buf with
      | none =>
        rw [extract_noD3 h6 hfd]
        exact extract_short (by simp)
      | some idx =>
        obtain ⟨t, ht⟩ := findD3_drop hfd
        have hidx : idx < buf.length := findD3_some_lt hfd
        have hslen : (buf.drop idx).length = buf.length - idx := List.length_drop idx buf
        rw [extract_trim h6 hfd]
        by_cases hstuck : (buf.drop idx).length < payloadLen (buf.drop idx) + 6 ∨
            (buf.drop idx).length < 3
        · rw [extractAt_stuck hstuck]
          show extract (buf.drop idx) = (buf.drop idx, [])
          by_cases hs6 : (buf.drop idx).length < 6
          · exact extract_short hs6
          · rw [ht] at hs6 ⊢
            rw [extract_headD3, extractAt_stuck (by rw [← ht]; exact hstuck)]
        · push_neg at hstuck
          obtain ⟨hc, h3⟩ := hstuck
          rw [extractAt_step (by omega) (by omega)]
          have hlen' : ((buf.drop idx).drop (payloadLen (buf.drop idx) + 6)).length ≤ n := by
            rw [List.length_drop, hslen]
            omega
          have hrec := ih ((buf.drop idx).drop (payloadLen (buf.drop idx) + 6)) hlen'
          by_cases hv : (validate_message
              ((buf.drop idx).take (payloadLen (buf.drop idx) + 6))).1 = true
          · rw [if_pos hv]
            exact hrec
          · rw [if_neg hv]
            exact hrec

/-- A framer state whose buffer the extraction loop leaves unchanged:
every state reached through `addData` is of this shape. -/
def Quiescent (st : MessageBuffer) : Prop :=
  extract st.buffer = (st.buffer, [])

/-- States with the same messages and canon-equal buffers are
indistinguishable to all future feeds. -/
def EquivSt (s t : MessageBuffer) : Prop :=
  s.messages = t.messages ∧ canon s.buffer = canon t.buffer

theorem EquivSt.symm2 {s t : MessageBuffer} (h : EquivSt s t) : EquivSt t s :=
  ⟨h.1.symm, h.2.symm⟩

theorem EquivSt.trans2 {s t u : MessageBuffer} (h1 : EquivSt s t)
    (h2 : EquivSt t u) : EquivSt s u :=
  ⟨h1.1.trans h2.1, h1.2.trans h2.2⟩

theorem quiescent_init : Quiescent initBuffer :=
  extract_short (by simp [initBuffer])

theorem quiescent_addData (st : MessageBuffer) (d : List Nat) :
    Quiescent (addData st d) :=
  extract_idem (st.buffer ++ d).length (st.buffer ++ d) (le_refl _)

theorem addData_congr {s t : MessageBuffer} (h : EquivSt s t) (d : List Nat) :
    EquivSt (addData s d) (addData t d) := by
  obtain ⟨hm, hc⟩ := extract_canon_congr (canon_append_congr h.2 d)
  exact ⟨by rw [show (addData s d).messages = s.messages ++ (extract (s.buffer ++ d)).2
      from rfl, show (addData t d).messages = t.messages ++ (extract (t.buffer ++ d)).2
      from rfl, h.1, hm], hc⟩

theorem addData_append (st : MessageBuffer) (a b : List Nat) :
    EquivSt (addData st (a ++ b)) (addData (addData st a) b) := by
  obtain ⟨hm, hc⟩ := extract_append (st.buffer ++ a).length (st.buffer ++ a) b (le_refl _)
  constructor
  · show st.messages ++ (extract (st.buffer ++ (a ++ b))).2 =
      (st.messages ++ (extract (st.buffer ++ a)).2) ++
        (extract ((extract (st.buffer ++ a)).1 ++ b)).2
    rw [← List.append_assoc st.buffer a b, hm, List.append_assoc]
  · show canon (extract (st.buffer ++ (a ++ b))).1 =
      canon (extract ((extract (st.buffer ++ a)).1 ++ b)).1
    rw [← List.append_assoc st.buffer a b, hc]

/-- Feeding chunks one after the other is equivalent (same messages,
canon-equal buffer) to feeding their concatenation at once. -/
theorem foldl_equiv_join : ∀ (chunks : List (List Nat)) (st : MessageBuffer),
    Quiescent st → EquivSt (chunks.foldl addData st) (addData st chunks.flatten) := by
  intro chunks
  induction chunks with
  | nil =>
    intro st hq
    constructor
    · show st.messages = st.messages ++ (extract (st.buffer ++ [])).2
      rw [List.append_nil, hq]
      simp
    · show canon st.buffer = canon (extract (st.buffer ++ [])).1
      rw [List.append_nil, hq]
  | cons c cs ih =>
    intro st hq
    have h1 : EquivSt ((c :: cs).foldl addData st) (addData (addData st c) cs.flatten) :=
      ih (addData st c) (quiescent_addData st c)
    have h2 : EquivSt (addData st (c ++ cs.flatten)) (addData (addData st c) cs.flatten) :=
      addData_append st c cs.flatten
    have h3 : (c :: cs).flatten = c ++ cs.flatten := rfl
    rw [h3]
    exact h1.trans2 h2.symm2

theorem join_map_singleton : ∀ (S : List Nat), (S.map (fun b => [b])).flatten = S := by
  intro S
  induction S with
  | nil => rfl
  | cons b rest ih => simp [ih]

/-! ## The serial reader's per-byte framing loop (`LC29HSerial._read_loop`)

```python
for byte in data:
    if byte == 0xD3:
        if rtcm_buffer:
            self._process_rtcm(bytes(rtcm_buffer))
        rtcm_buffer = bytearray([byte])
    elif rtcm_buffer:
        rtcm_buffer.append(byte)
        if len(rtcm_buffer) >= 3:
            msg_len = ((rtcm_buffer[1] & 0x03) << 8) | rtcm_buffer[2]
            if len(rtcm_buffer) >= msg_len + 6:
                self._process_rtcm(bytes(rtcm_buffer[:msg_len + 6]))
                rtcm_buffer = bytearray()
    else:
        ... NMEA path (rtcm_buffer untouched) ...
```
-/

/-- State of the reader loop: the RTCM accumulation buffer and the NMEA
accumulation buffer. -/
structure ReaderState where
  rtcm : List Nat
  nmea : List Nat
  deriving DecidableEq, Repr

def initReader : ReaderState := ⟨[], []⟩

/-- One iteration of the byte loop.  Returns the new state and the list
of byte strings passed to `_process_rtcm` during this iteration. -/
def readerStep (st : ReaderState) (b : Nat) : ReaderState × List (List Nat) :=
  if b = 0xD3 then
    (⟨[0xD3], st.nmea⟩, if st.rtcm ≠ [] then [st.rtcm] else [])
  else if st.rtcm ≠ [] then
    let r := st.rtcm ++ [b]
    if 3 ≤ r.length then
      if payloadLen r + 6 ≤ r.length then (⟨[], st.nmea⟩, [r.take (payloadLen r + 6)])
      else (⟨r, st.nmea⟩, [])
    else (⟨r, st.nmea⟩, [])
  else
    if b = 36 then (⟨st.rtcm, [b]⟩, [])
    else if st.nmea ≠ [] then
      (⟨st.rtcm, if b = 10 then [] else st.nmea ++ [b]⟩, [])
    else (st, [])

/-- Run the byte loop over a list of bytes, collecting all
`_process_rtcm` calls. -/
def readerRun (st : ReaderState) : List Nat → ReaderState × List (List Nat)
  | [] => (st, [])
  | b :: rest =>
    let r1 := readerStep st b
    let r2 := readerRun r1.1 rest
    (r2.1, r1.2 ++ r2.2)

/-! ## `validate_message` with checked indexing

`validate_messageM` mirrors `RTCM3Parser.validate_message` but models
every `data[i]` subscript as Python evaluates it: a bounds-checked
access (negative indices counting from the end) that fails — raises
`IndexError` — when out of range.  `none` models an uncaught exception
escaping the function. -/

/-- Python sequence subscription `l[i]`, with negative indices. -/
def pyIndex (l : List Nat) (i : Int) : Option Nat :=
  let j : Int := if i < 0 then (l.length : Int) + i else i
  if 0 ≤ j ∧ j.toNat < l.length then some (l.getD j.toNat 0) else none

/-- `RTCM3Parser._verify_crc24q` with checked indexing. -/
def verify_crc24qM (data : List Nat) : Option Bool :=
  if data.length < 6 then some false
  else do
    let c1 ← pyIndex data (-3)
    let c2 ← pyIndex data (-2)
    let c3 ← pyIndex data (-1)
    pure ((c1 <<< 16 ||| c2 <<< 8 ||| c3) == calc_crc24q (data.take (data.length - 3)))

/-- `RTCM3Parser.validate_message` with checked indexing. -/
def validate_messageM (data : List Nat) : Option (Bool × Nat × Nat) :=
  if data.length < 6 then some (false, 0, 0)
  else do
    let b0 ← pyIndex data 0
    if b0 ≠ 0xD3 then some (false, 0, 0)
    else do
      let b1 ← pyIndex data 1
      let b2 ← pyIndex data 2
      let msg_len := ((b1 &&& 0x03) <<< 8) ||| b2
      let msg_type ←
        if 5 ≤ data.length then do
          let b3 ← pyIndex data 3
          let b4 ← pyIndex data 4
          pure ((b3 <<< 4) ||| (b4 >>> 4))
        else pure 0
      if data.length ≠ msg_len + 6 then some (false, msg_type, msg_len)
      else do
        let ok ← verify_crc24qM data
        if ¬ ok then some (false, msg_type, msg_len)
        else some (true, msg_type, msg_len)

theorem pyIndex_pos {l : List Nat} {i : Int} (h0 : 0 ≤ i) (h : i < (l.length : Int)) :
    pyIndex l i = some (l.getD i.toNat 0) := by
  have hj : (if i < 0 then (l.length : Int) + i else i) = i := if_neg (by omega)
  simp only [pyIndex, hj]
  rw [if_pos ⟨h0, by omega⟩]

theorem pyIndex_negIdx {l : List Nat} {i : Int} (hneg : i < 0)
    (h : 0 ≤ (l.length : Int) + i) :
    pyIndex l i = some (l.getD ((l.length : Int) + i).toNat 0) := by
  have hj : (if i < 0 then (l.length : Int) + i else i) = (l.length : Int) + i :=
    if_pos hneg
  simp only [pyIndex, hj]
  rw [if_pos ⟨h, by omega⟩]

/-- The checked-indexing version never fails and agrees with the total
function: `validate_message` raises no exception. -/
theorem validate_messageM_eq (data : List Nat) :
    validate_messageM data = some (validate_message data) := by
  by_cases h6 : data.length < 6
  · rw [validate_messageM, validate_message, if_pos h6, if_pos h6]
  · have e3 : ((data.length : Int) + (-3)).toNat = data.length - 3 := by omega
    have e2 : ((data.length : Int) + (-2)).toNat = data.length - 2 := by omega
    have e1 : ((data.length : Int) + (-1)).toNat = data.length - 1 := by omega
    have p3 : pyIndex data (-3) = some (data.getD (data.length - 3) 0) := by
      rw [pyIndex_negIdx (by omega) (by omega), e3]
    have p2 : pyIndex data (-2) = some (data.getD (data.length - 2) 0) := by
      rw [pyIndex_negIdx (by omega) (by omega), e2]
    have p1 : pyIndex data (-1) = some (data.getD (data.length - 1) 0) := by
      rw [pyIndex_negIdx (by omega) (by omega), e1]
    have hM : verify_crc24qM data = some (verify_crc24q data) := by
      rw [verify_crc24qM, verify_crc24q, if_neg h6, if_neg h6, p3, p2, p1]
      rfl
    have q0 : pyIndex data 0 = some (data.getD 0 0) := by
      rw [pyIndex_pos (by omega) (by omega)]
      rfl
    have q1 : pyIndex data 1 = some (data.getD 1 0) := by
      rw [pyIndex_pos (by omega) (by omega)]
      rfl
    have q2 : pyIndex data 2 = some (data.getD 2 0) := by
      rw [pyIndex_pos (by omega) (by omega)]
      rfl
    have q3 : pyIndex data 3 = some (data.getD 3 0) := by
      rw [pyIndex_pos (by omega) (by omega)]
      rfl
    have q4 : pyIndex data 4 = some (data.getD 4 0) := by
      rw [pyIndex_pos (by omega) (by omega)]
      rfl
    have h5 : 5 ≤ data.length := by omega
    rw [validate_messageM, validate_message, if_neg h6, if_neg h6,
      q0, q1, q2, q3, q4, hM]
    simp only [Option.bind_eq_bind, Option.some_bind, Option.pure_def, payloadLen, msgType, h5, ite_true]
    split_ifs <;> rfl

/-! ## NTRIP caster (`ntrip_server.py`)

Request text is modelled as `List Char` (the `data` of a Python `str`);
the text helpers below mirror the Python string operations that
`_handle_client` and `_verify_auth` use.  Base64 decoding
(`base64.b64decode` followed by `.decode('utf-8')`) is an external
library call; the handler takes it as an explicit function argument
`decode`, with `none` modelling a raised exception. -/

/-- `str.split('\r\n')`. -/
def splitOnCRLF : List Char → List (List Char)
  | [] => [[]]
  | '\x0d' :: '\x0a' :: rest => [] :: splitOnCRLF rest
  | c :: rest =>
    match splitOnCRLF rest with
    | [] => [[c]]
    | l :: ls => (c :: l) :: ls

/-- Python `str.isspace` characters relevant to `str.split()` /
`str.strip()` (ASCII whitespace). -/
def pyIsSpace (c : Char) : Bool :=
  c = ' ' ∨ c = '\t' ∨ c = '\x0a' ∨ c = '\x0d' ∨ c = '\x0b' ∨ c = '\x0c'

/-- Split at every whitespace character (keeping empty pieces). -/
def splitAtWs : List Char → List (List Char)
  | [] => [[]]
  | c :: rest =>
    if pyIsSpace c then [] :: splitAtWs rest
    else
      match splitAtWs rest with
      | [] => [[c]]
      | l :: ls => (c :: l) :: ls

/-- `str.split()` with no argument: split on whitespace runs, dropping
empty pieces. -/
def pySplitWs (l : List Char) : List (List Char) :=
  (splitAtWs l).filter (· ≠ [])

/-- `str.strip()`. -/
def pyStrip (l : List Char) : List Char :=
  ((l.dropWhile pyIsSpace).reverse.dropWhile pyIsSpace).reverse

/-- `str.split(sep, 1)` for a single-character separator: the text
before the first occurrence and the text after it, when present. -/
def splitOnce (sep : Char) : List Char → Option (List Char × List Char)
  | [] => none
  | c :: rest =>
    if c = sep then some ([], rest)
    else (splitOnce sep rest).map (fun p => (c :: p.1, p.2))

/-- The server state relevant to request handling: registered
mountpoint names, the `require_auth` flag and the credential table
(a Python dict, keys unique). -/
structure ServerState where
  mountpoints : List (List Char)
  require_auth : Bool
  credentials : List (List Char × List Char)
  deriving DecidableEq, Repr

/-- `NTRIPServer.__init__`: no mountpoints, authentication disabled,
empty credential table. -/
def initServer : ServerState := ⟨[], false, []⟩

/-- Python dict assignment `d[k] = v`. -/
def dictInsert (m : List (List Char × List Char)) (k v : List Char) :
    List (List Char × List Char) :=
  if (m.lookup k).isSome then m.map (fun p => if p.1 = k then (k, v) else p)
  else m ++ [(k, v)]

/-- The configuration operations that mutate this state. -/
inductive ServerOp where
  | addMountpoint (name : List Char)
  | setAuthentication (u p : List Char)

/-- `add_mountpoint` records the name; `set_authentication` sets
`require_auth = True` and stores the credential. -/
def applyOp (st : ServerState) : ServerOp → ServerState
  | .addMountpoint n =>
    { st with mountpoints := if n ∈ st.mountpoints then st.mountpoints
        else st.mountpoints ++ [n] }
  | .setAuthentication u p =>
    { st with require_auth := true, credentials := dictInsert st.credentials u p }

/-- A server state reached from startup by a sequence of configuration
calls. -/
def applyOps (ops : List ServerOp) : ServerState :=
  ops.foldl applyOp initServer

/-- What `_handle_client` does with a connection. -/
inductive HandlerResult where
  | noRequest
  | closedResponse (code : Nat) (msg : List Char) (extraHeaders : List Char)
  | sourcetable
  | registered (mountpoint : List Char)
  deriving DecidableEq, Repr

/-- The loop searching for the `Authorization:` header; the value is
`line.split(":", 1)[1].strip()`. -/
def findAuthHeader (lines : List (List Char)) : Option (List Char) :=
  (lines.find? (fun l => List.isPrefixOf "Authorization:".data l)).map
    (fun l =>
      match splitOnce ':' l with
      | some p => pyStrip p.2
      | none => [])

/-- `NTRIPServer._verify_auth`. -/
def verify_auth (creds : List (List Char × List Char))
    (decode : List Char → Option (List Char)) (h : List Char) : Bool :=
  if ¬ List.isPrefixOf "Basic ".data h then false
  else
    match decode (h.drop 6) with
    | none => false
    | some decoded =>
      match splitOnce ':' decoded with
      | none => false
      | some (u, p) => creds.lookup u = some p

/-- The 401 response sent on failed authentication. -/
def resp401 : HandlerResult :=
  .closedResponse 401 "Unauthorized".data
    "WWW-Authenticate: Basic realm=\x22NTRIP\x22\x0d\x0a".data

/-- `NTRIPServer._handle_client` on the received request text. -/
def handleClient (st : ServerState) (decode : List Char → Option (List Char))
    (request : List Char) : HandlerResult :=
  if request = [] then .noRequest
  else
    let lines := splitOnCRLF request
    let request_line := pySplitWs (lines.headD [])
    if request_line.length < 3 then .closedResponse 400 "Bad Request".data []
    else
      let method := request_line.headD []
      let path := request_line.getD 1 []
      if method = "GET".data ∧ path = "/".data then .sourcetable
      else if method = "GET".data ∧ List.isPrefixOf "/".data path then
        let mountpoint := path.drop 1
        if mountpoint ∉ st.mountpoints then
          .closedResponse 404 "Mountpoint not found".data []
        else if st.require_auth then
          match findAuthHeader lines with
          | none => resp401
          | some h =>
            if h = [] ∨ ¬ verify_auth st.credentials decode h then resp401
            else .registered mountpoint
        else .registered mountpoint
      else .closedResponse 400 "Bad Request".data []

/-! ### Broadcast (`NTRIPServer.broadcast_rtcm`, `NTRIPClient.send_data`) -/

/-- A connected subscriber: identity, subscribed mountpoint, and
whether its socket currently accepts writes (`send_data` returns
`True`).  `sendOk` stands for the outcome of `conn.sendall`. -/
structure Client where
  id : Nat
  mountpoint : List Char
  sendOk : Bool
  deriving DecidableEq, Repr

/-- The subscribers `broadcast_rtcm` attempts to send to: all current
clients, except those filtered out by the optional mountpoint
argument. -/
def attempted (clients : List Client) (mp : Option (List Char)) : List Client :=
  clients.filter (fun c =>
    match mp with
    | some m => c.mountpoint = m
    | none => true)

/-- `NTRIPServer.broadcast_rtcm`: skip when the payload is empty; send
to every non-filtered client, collecting the failures; then remove the
failures from the client list (after the iteration completes). -/
def broadcast (clients : List Client) (data : List Nat) (mp : Option (List Char)) :
    List Client :=
  if data = [] then clients
  else
    let disconnected := (attempted clients mp).filter (fun c => ¬ c.sendOk)
    disconnected.foldl (fun l c => l.erase c) clients

/-! ### Server lemmas -/

theorem dictInsert_ne_nil (m : List (List Char × List Char)) (k v : List Char) :
    dictInsert m k v ≠ [] := by
  unfold dictInsert
  split
  · rename_i hs
    intro hmap
    rw [List.map_eq_nil_iff] at hmap
    subst hmap
    simp [List.lookup] at hs
  · simp

/-- In every reachable server state, `require_auth` holds exactly when
the credential table is non-empty. -/
theorem reachable_auth_iff (ops : List ServerOp) :
    ((applyOps ops).require_auth = true ↔ (applyOps ops).credentials ≠ []) := by
  suffices h : ∀ (ops : List ServerOp) (st : ServerState),
      (st.require_auth = true ↔ st.credentials ≠ []) →
      ((ops.foldl applyOp st).require_auth = true ↔
        (ops.foldl applyOp st).credentials ≠ []) by
    exact h ops initServer (by simp [initServer])
  intro ops
  induction ops with
  | nil => intro st h; exact h
  | cons op rest ih =>
    intro st h
    refine ih (applyOp st op) ?_
    cases op with
    | addMountpoint n => exact h
    | setAuthentication u p =>
      simp only [applyOp]
      simp [dictInsert_ne_nil]

/-- `_handle_client` on a GET request for a registered mountpoint:
everything reduces to the authentication gate. -/
theorem handleClient_get_mountpoint (st : ServerState)
    (decode : List Char → Option (List Char)) {request mp v : List Char}
    {rest : List (List Char)}
    (hne : request ≠ [])
    (hline : pySplitWs ((splitOnCRLF request).headD []) =
      "GET".data :: ('/' :: mp) :: v :: rest)
    (hmpne : mp ≠ []) (hmp : mp ∈ st.mountpoints) :
    handleClient st decode request =
      (if st.require_auth then
        match findAuthHeader (splitOnCRLF request) with
        | none => resp401
        | some h =>
          if h = [] ∨ ¬ verify_auth st.credentials decode h then resp401
          else .registered mp
      else .registered mp) := by
  unfold handleClient
  rw [if_neg hne]
  simp only [hline]
  rw [if_neg (by simp)]
  have hpath : ('/' :: mp) ≠ "/".data := by
    intro hcontra
    apply hmpne
    simpa using hcontra
  rw [if_neg (by simp [hpath])]
  rw [if_pos (by simp [List.isPrefixOf])]
  simp only [List.drop_one, List.tail_cons]
  rw [if_neg (by simp [List.getD_cons_succ, List.getD_cons_zero, hmp])]
  simp [List.getD_cons_succ, List.getD_cons_zero]

theorem foldl_erase_subset (ds : List Client) :
    ∀ (l : List Client), (ds.foldl (fun l c => l.erase c) l) ⊆ l := by
  induction ds with
  | nil => intro l; exact fun _ h => h
  | cons d rest ih =>
    intro l
    exact fun x hx => List.erase_subset d l (ih (l.erase d) hx)

theorem notMem_foldl_erase {c : Client} : ∀ (ds l : List Client),
    l.Nodup → c ∈ ds → c ∉ ds.foldl (fun l c => l.erase c) l := by
  intro ds
  induction ds with
  | nil => intro l _ h; simp at h
  | cons d rest ih =>
    intro l hnd hc
    rcases List.mem_cons.mp hc with rfl | hc
    · intro hmem
      have hsub := foldl_erase_subset rest (l.erase c) hmem
      exact (List.Nodup.mem_erase_iff hnd).mp hsub |>.1 rfl
    · exact ih (l.erase d) (hnd.erase d) hc

/-- A client whose send fails during a broadcast is removed from the
client list before the broadcast returns. -/
theorem broadcast_removes_failed {clients : List Client} {data : List Nat}
    {mp : Option (List Char)} {c : Client} (hnd : clients.Nodup)
    (hatt : c ∈ attempted clients mp) (hfail : c.sendOk = false)
    (hdata : data ≠ []) : c ∉ broadcast clients data mp := by
  unfold broadcast
  rw [if_neg hdata]
  refine notMem_foldl_erase _ clients hnd ?_
  exact List.mem_filter.mpr ⟨hatt, by simp [hfail]⟩

/-- Broadcast never adds clients. -/
theorem broadcast_subset (clients : List Client) (data : List Nat)
    (mp : Option (List Char)) : broadcast clients data mp ⊆ clients := by
  unfold broadcast
  split
  · exact fun _ h => h
  · exact foldl_erase_subset _ clients

/-- A client that is no longer in the list is never again attempted. -/
theorem notMem_attempted {clients : List Client} {c : Client}
    (h : c ∉ clients) (mp : Option (List Char)) : c ∉ attempted clients mp :=
  fun hc => h (List.mem_filter.mp hc).1

/-! ### Frame shape facts -/

/-- What passing `validate_message` means for the frame's bytes. -/
theorem validate_true_props {m : List Nat} (h : (validate_message m).1 = true) :
    m.getD 0 0 = 0xD3 ∧ m.length = payloadLen m + 6 ∧
      calc_crc24q (m.take (m.length - 3)) = trailer m := by
  simp only [validate_message] at h
  by_cases h6 : m.length < 6
  · rw [if_pos h6] at h
    simp at h
  · rw [if_neg h6] at h
    by_cases h0 : m.getD 0 0 ≠ 0xD3
    · rw [if_pos h0] at h
      simp at h
    · rw [if_neg h0] at h
      push_neg at h0
      by_cases hl : m.length ≠ payloadLen m + 6
      · rw [if_pos hl] at h
        simp at h
      · rw [if_neg hl] at h
        push_neg at hl
        by_cases hv : verify_crc24q m = true
        · refine ⟨h0, hl, ?_⟩
          unfold verify_crc24q at hv
          rw [if_neg h6] at hv
          have heq : trailer m = calc_crc24q (m.take (m.length - 3)) := by
            simpa using hv
          exact heq.symm
        · rw [if_pos (by simp [hv])] at h
          simp at h

theorem runFramer_messages_valid : ∀ (chunks : List (List Nat)) (st : MessageBuffer),
    (∀ m ∈ st.messages, (validate_message m).1 = true) →
    ∀ m ∈ (chunks.foldl addData st).messages, (validate_message m).1 = true := by
  intro chunks
  induction chunks with
  | nil => intro st h; exact h
  | cons c cs ih =>
    intro st h
    refine ih (addData st c) ?_
    intro m hm
    rcases List.mem_append.mp hm with hm | hm
    · exact h m hm
    · exact extract_msgs_valid hm

theorem suffix_append_right {α : Type} {a b : List α} (h : a <:+ b) (x : List α) :
    a ++ x <:+ b ++ x := by
  obtain ⟨p, rfl⟩ := h
  exact ⟨p, by rw [List.append_assoc]⟩

theorem infix_append_right {α : Type} {a b : List α} (h : a <:+: b) (x : List α) :
    a <:+: b ++ x :=
  h.trans ⟨[], x, by simp⟩

theorem runFramer_messages_substring : ∀ (chunks : List (List Nat)) (st : MessageBuffer)
    (m : List Nat), m ∈ (chunks.foldl addData st).messages →
    m ∈ st.messages ∨ m <:+: (st.buffer ++ chunks.flatten) := by
  intro chunks
  induction chunks with
  | nil =>
    intro st m hm
    exact Or.inl hm
  | cons c cs ih =>
    intro st m hm
    have hflat : st.buffer ++ (c :: cs).flatten = (st.buffer ++ c) ++ cs.flatten := by
      rw [List.flatten_cons, List.append_assoc]
    rcases ih (addData st c) m hm with hmem | hinf
    · rcases List.mem_append.mp hmem with hmem | hmem
      · exact Or.inl hmem
      · refine Or.inr ?_
        rw [hflat]
        exact infix_append_right (extract_msgs_substring hmem) cs.flatten
    · refine Or.inr ?_
      rw [hflat]
      have hsfx : (extract (st.buffer ++ c)).1 ++ cs.flatten <:+
          (st.buffer ++ c) ++ cs.flatten :=
        suffix_append_right (extract_buffer_suffix (st.buffer ++ c)) cs.flatten
      exact hinf.trans hsfx.isInfix

theorem bytes_of_suffix {a b : List Nat} (h : a <:+ b) (hb : IsBytes b) : IsBytes a :=
  fun x hx => hb x (h.subset hx)

theorem runFramer_buffer_bound : ∀ (chunks : List (List Nat)) (st : MessageBuffer),
    IsBytes st.buffer → st.buffer.length ≤ 1028 → (∀ c ∈ chunks, IsBytes c) →
    (chunks.foldl addData st).buffer.length ≤ 1028 ∧
      IsBytes (chunks.foldl addData st).buffer := by
  intro chunks
  induction chunks with
  | nil => intro st h1 h2 _; exact ⟨h2, h1⟩
  | cons c cs ih =>
    intro st h1 h2 hc
    have hbytes : IsBytes (st.buffer ++ c) :=
      bytes_append h1 (hc c (List.mem_cons_self c cs))
    refine ih (addData st c) ?_ ?_ (fun x hx => hc x (List.mem_cons_of_mem c hx))
    · exact bytes_of_suffix (extract_buffer_suffix (st.buffer ++ c)) hbytes
    · exact extract_len_le (st.buffer ++ c).length (st.buffer ++ c) (le_refl _) hbytes

/-! ### Behaviour on a failed or incomplete frame candidate -/

/-- A complete candidate at position 0 that fails validation: the whole
`payload_len + 6` bytes are discarded and scanning continues after
them. -/
theorem extract_drop_failed {buf : List Nat} {t : List Nat}
    (hhead : buf = 0xD3 :: t) (hcomp : payloadLen buf + 6 ≤ buf.length)
    (hinv : (validate_message (buf.take (payloadLen buf + 6))).1 = false) :
    extract buf = extract (buf.drop (payloadLen buf + 6)) := by
  subst hhead
  rw [extract_headD3, extractAt_step (by omega) (by omega),
    if_neg (by simp only [hinv]; decide)]

/-- An incomplete candidate at position 0: the buffer is left intact
and nothing is emitted. -/
theorem extract_incomplete {buf : List Nat} {t : List Nat}
    (hhead : buf = 0xD3 :: t) (hlt : buf.length < payloadLen buf + 6) :
    extract buf = (buf, []) := by
  subst hhead
  rw [extract_headD3, extractAt_stuck (Or.inl hlt)]

/-- While a candidate frame is in progress and still incomplete after a
feed, `add_data` keeps byte 0 as the candidate: the buffer is just the
old buffer plus the new bytes, and nothing is emitted. -/
theorem addData_incomplete {st : MessageBuffer} {d : List Nat} {t : List Nat}
    (hhead : st.buffer = 0xD3 :: t)
    (hlt : (st.buffer ++ d).length < payloadLen (st.buffer ++ d) + 6) :
    addData st d = ⟨st.buffer ++ d, st.messages⟩ := by
  have h : extract (st.buffer ++ d) = (st.buffer ++ d, []) := by
    refine extract_incomplete (t := t ++ d) ?_ hlt
    rw [hhead]
    rfl
  unfold addData
  rw [h]
  simp

/-- In the serial reader's byte loop, an arriving `0xD3` always restarts
framing when a frame is in progress: the partial buffer is flushed to
`_process_rtcm` and the new `0xD3` becomes the whole buffer. -/
theorem readerStep_D3_restarts (st : ReaderState) (h : st.rtcm ≠ []) :
    (readerStep st 0xD3).1.rtcm = [0xD3] ∧ (readerStep st 0xD3).2 = [st.rtcm] := by
  simp [readerStep, h]

/-! ### The bit-serial CRC24Q reference definition -/

/-- Modelled from the spec (§4.1): one inner iteration — "shift left by
1 and, if bit 24 set, XOR the polynomial `0x1864CFB`". -/
def crcSpecShift (c : Nat) : Nat :=
  if (c <<< 1) &&& 0x1000000 ≠ 0 then (c <<< 1) ^^^ 0x1864CFB else c <<< 1

/-- Modelled from the spec (§4.1): "initial value 0; for each input
byte, XOR shifted left by 16 into the accumulator; then for 8
iterations shift left by 1 and, if bit 24 set, XOR the polynomial;
finally mask to 24 bits". -/
def crc24qSpecAux (crc : Nat) : List Nat → Nat
  | [] => crc
  | b :: rest => crc24qSpecAux (crcSpecShift^[8] (crc ^^^ (b <<< 16))) rest

/-- The spec's bit-serial CRC24Q. -/
def crc24q_spec (data : List Nat) : Nat :=
  crc24qSpecAux 0 data &&& 0xFFFFFF

theorem crcByte_eq_spec (crc b : Nat) :
    crcByte crc b = crcSpecShift^[8] (crc ^^^ (b <<< 16)) := rfl

theorem crc24qSpecAux_eq_foldl : ∀ (l : List Nat) (crc : Nat),
    crc24qSpecAux crc l = l.foldl crcByte crc := by
  intro l
  induction l with
  | nil => intro crc; rfl
  | cons b rest ih =>
    intro crc
    rw [crc24qSpecAux, List.foldl_cons, ih, crcByte_eq_spec]

/-- The implementation computes exactly the spec's bit-serial CRC. -/
theorem calc_crc24q_eq_spec (data : List Nat) :
    calc_crc24q data = crc24q_spec data := by
  unfold calc_crc24q crc24q_spec
  rw [crc24qSpecAux_eq_foldl]

/-- A byte string shorter than 6 bytes never validates. -/
theorem validate_short {data : List Nat} (h : data.length < 6) :
    validate_message data = (false, 0, 0) := by
  unfold validate_message
  rw [if_pos h]

/-- A byte string not starting with the preamble never validates. -/
theorem validate_headless {data : List Nat} (h6 : ¬ data.length < 6)
    (h : data.getD 0 0 ≠ 0xD3) : validate_message data = (false, 0, 0) := by
  unfold validate_message
  rw [if_neg h6, if_pos h]

/-- The `message_length` component of `validate_message` on byte input
is at most 1023. -/
theorem validate_len_le {data : List Nat} (hbytes : IsBytes data) :
    (validate_message data).2.2 ≤ 1023 := by
  have hp := payloadLen_le hbytes
  simp only [validate_message]
  by_cases h6 : data.length < 6
  · rw [if_pos h6]
    simp
  · rw [if_neg h6]
    by_cases h0 : data.getD 0 0 ≠ 0xD3
    · rw [if_pos h0]
      simp
    · rw [if_neg h0]
      by_cases hl : data.length ≠ payloadLen data + 6
      · rw [if_pos hl]
        exact hp
      · rw [if_neg hl]
        by_cases hv : ¬ verify_crc24q data = true
        · rw [if_pos hv]
          exact hp
        · rw [if_neg hv]
          exact hp

/-- A sequence of later `broadcast_rtcm` calls (payload and optional
mountpoint filter each). -/
def runBroadcasts (clients : List Client) :
    List (List Nat × Option (List Char)) → List Client
  | [] => clients
  | p :: rest => runBroadcasts (broadcast clients p.1 p.2) rest

theorem runBroadcasts_not_mem {c : Client} :
    ∀ (seq : List (List Nat × Option (List Char))) (l : List Client),
      c ∉ l → c ∉ runBroadcasts l seq := by
  intro seq
  induction seq with
  | nil => intro l h; exact h
  | cons p rest ih =>
    intro l h
    exact ih (broadcast l p.1 p.2) (fun hmem => h (broadcast_subset l p.1 p.2 hmem))

/-- Establish `IsBytes` by computation. -/
theorem isBytes_of_all {l : List Nat} (h : l.all (fun x => decide (x < 256)) = true) :
    IsBytes l := by
  intro x hx
  have := List.all_eq_true.mp h x hx
  simpa using this

/-! ## Claim theorems -/

/-- C1: For every byte stream fed to the framer, in any sequence of
`add_data` calls, every message it emits starts with byte `0xD3`, has
total length `payload_len + 6` where `payload_len` is read from its
bytes 1 and 2, and the CRC24Q over its bytes `0..len-4` equals the
24-bit big-endian value of its last 3 bytes. -/
theorem C1_emitted_frames_wellformed (chunks : List (List Nat)) (m : List Nat)
    (hm : m ∈ (runFramer chunks).messages) :
    m.getD 0 0 = 0xD3 ∧ m.length = payloadLen m + 6 ∧
      calc_crc24q (m.take (m.length - 3)) = trailer m :=
  validate_true_props
    (runFramer_messages_valid chunks initBuffer (by simp [initBuffer]) m hm)

theorem C1_witness :
    ([0xD3, 0x00, 0x00, 0x47, 0xEA, 0x4B] : List Nat).getD 0 0 = 0xD3 ∧
      ([0xD3, 0x00, 0x00, 0x47, 0xEA, 0x4B] : List Nat).length =
        payloadLen [0xD3, 0x00, 0x00, 0x47, 0xEA, 0x4B] + 6 ∧
      calc_crc24q (([0xD3, 0x00, 0x00, 0x47, 0xEA, 0x4B] : List Nat).take
          (([0xD3, 0x00, 0x00, 0x47, 0xEA, 0x4B] : List Nat).length - 3)) =
        trailer [0xD3, 0x00, 0x00, 0x47, 0xEA, 0x4B] :=
  C1_emitted_frames_wellformed [[0xD3, 0x00, 0x00, 0x47, 0xEA, 0x4B]]
    [0xD3, 0x00, 0x00, 0x47, 0xEA, 0x4B] (by decide)

/-- C2 counterexample: on the input `D3 00 00 D3 00 00` the single
complete candidate (`payload_len = 0`, six bytes) fails its CRC check,
and the framer empties its buffer — it does not keep the
`payload_len + 5 = 5` bytes after the failing preamble that the claim
says are kept and rescanned. -/
theorem C2_counterexample :
    payloadLen [0xD3, 0x00, 0x00, 0xD3, 0x00, 0x00] = 0 ∧
      (validate_message [0xD3, 0x00, 0x00, 0xD3, 0x00, 0x00]).1 = false ∧
      (addData initBuffer [0xD3, 0x00, 0x00, 0xD3, 0x00, 0x00]).buffer = [] ∧
      (addData initBuffer [0xD3, 0x00, 0x00, 0xD3, 0x00, 0x00]).buffer ≠
        [0x00, 0x00, 0xD3, 0x00, 0x00] := by
  decide

/-- C2 (amended): when the framer has accumulated a complete candidate
frame (`0xD3` at buffer position 0, `payload_len + 6` bytes present)
that fails validation, it discards the entire candidate — all
`payload_len + 6` bytes — and resumes scanning with the bytes after
it; a `0xD3` inside the failed candidate is never reconsidered. -/
theorem C2_failed_frame_dropped_whole {buf t : List Nat}
    (hhead : buf = 0xD3 :: t) (hcomp : payloadLen buf + 6 ≤ buf.length)
    (hinv : (validate_message (buf.take (payloadLen buf + 6))).1 = false) :
    extract buf = extract (buf.drop (payloadLen buf + 6)) :=
  extract_drop_failed hhead hcomp hinv

theorem C2_witness :
    extract [0xD3, 0x00, 0x00, 0xD3, 0x00, 0x00] =
      extract (([0xD3, 0x00, 0x00, 0xD3, 0x00, 0x00] : List Nat).drop
        (payloadLen [0xD3, 0x00, 0x00, 0xD3, 0x00, 0x00] + 6)) :=
  C2_failed_frame_dropped_whole (t := [0x00, 0x00, 0xD3, 0x00, 0x00]) rfl
    (by decide) (by decide)

/-- C3 counterexample: in the serial reader's per-byte loop
(`LC29HSerial._read_loop`), with a frame in progress — buffer
`D3 00 02`, which needs `payload_len + 6 = 8` bytes — an arriving
`0xD3` restarts framing: the buffer becomes `[D3]` instead of the
claim's `[D3, 00, 02, D3]` with position 0 still authoritative. -/
theorem C3_counterexample :
    (readerRun initReader [0xD3, 0x00, 0x02]).1.rtcm = [0xD3, 0x00, 0x02] ∧
      payloadLen [0xD3, 0x00, 0x02] + 6 = 8 ∧
      (readerRun initReader [0xD3, 0x00, 0x02, 0xD3]).1.rtcm = [0xD3] ∧
      (readerRun initReader [0xD3, 0x00, 0x02, 0xD3]).1.rtcm ≠
        [0xD3, 0x00, 0x02, 0xD3] := by
  decide

/-- C3 (amended): in `RTCMMessageBuffer`, while a `0xD3` candidate
occupies position 0 and the frame is still incomplete after a feed, a
subsequent `0xD3` inside the data does not restart framing — the
buffer stays the position-0 candidate extended by the new bytes and
nothing is emitted.  In the serial reader's per-byte loop, by
contrast, an arriving `0xD3` during an in-progress frame always
restarts framing, flushing the partial buffer. -/
theorem C3_position_zero_authoritative (st : MessageBuffer) (t d : List Nat)
    (rst : ReaderState) (hhead : st.buffer = 0xD3 :: t)
    (hlt : (st.buffer ++ d).length < payloadLen (st.buffer ++ d) + 6)
    (hr : rst.rtcm ≠ []) :
    addData st d = ⟨st.buffer ++ d, st.messages⟩ ∧
      (readerStep rst 0xD3).1.rtcm = [0xD3] :=
  ⟨addData_incomplete hhead hlt, (readerStep_D3_restarts rst hr).1⟩

theorem C3_witness :
    addData ⟨[0xD3, 0x00, 0x02], []⟩ [0xD3] = ⟨[0xD3, 0x00, 0x02, 0xD3], []⟩ ∧
      (readerStep ⟨[0xD3, 0x00, 0x02], []⟩ 0xD3).1.rtcm = [0xD3] :=
  C3_position_zero_authoritative ⟨[0xD3, 0x00, 0x02], []⟩ [0x00, 0x02] [0xD3]
    ⟨[0xD3, 0x00, 0x02], []⟩ rfl (by decide) (by decide)

/-- C4: the CRC24Q implementation equals the bit-serial definition
(accumulator 0, per byte XOR at bit 16, 8 shift-and-conditionally-XOR
steps with polynomial `0x1864CFB`, final 24-bit mask, no final XOR);
CRC24Q of the empty byte sequence is 0; and on a frame whose length
matches `payload_len + 6`, verification compares the CRC over bytes
`0..payload_len+2` with the frame's 3-byte big-endian trailer. -/
theorem C4_crc24q_bitserial (data frame : List Nat)
    (hlen : frame.length = payloadLen frame + 6) :
    calc_crc24q data = crc24q_spec data ∧
      calc_crc24q [] = 0 ∧
      (verify_crc24q frame = true ↔
        trailer frame = calc_crc24q (frame.take (payloadLen frame + 3))) := by
  refine ⟨calc_crc24q_eq_spec data, rfl, ?_⟩
  unfold verify_crc24q
  rw [if_neg (by omega), hlen]
  rw [show payloadLen frame + 6 - 3 = payloadLen frame + 3 from by omega]
  exact beq_iff_eq

theorem C4_witness :
    calc_crc24q [0x01, 0x02, 0x03] = crc24q_spec [0x01, 0x02, 0x03] ∧
      calc_crc24q [] = 0 ∧
      (verify_crc24q [0xD3, 0x00, 0x00, 0x47, 0xEA, 0x4B] = true ↔
        trailer [0xD3, 0x00, 0x00, 0x47, 0xEA, 0x4B] =
          calc_crc24q (([0xD3, 0x00, 0x00, 0x47, 0xEA, 0x4B] : List Nat).take
            (payloadLen [0xD3, 0x00, 0x00, 0x47, 0xEA, 0x4B] + 3))) :=
  C4_crc24q_bitserial [0x01, 0x02, 0x03] [0xD3, 0x00, 0x00, 0x47, 0xEA, 0x4B]
    (by decide)

/-- C5: for every byte sequence `S` and every partition of `S` into
consecutive chunks, feeding the chunks in order to a fresh framer
yields exactly the same emitted frames, in the same order, as feeding
`S` one byte at a time. -/
theorem C5_chunking_invariance (chunks : List (List Nat)) (S : List Nat)
    (hS : chunks.flatten = S) :
    (runFramer chunks).messages = (runFramer (S.map (fun b => [b]))).messages := by
  have h1 : EquivSt (runFramer chunks) (addData initBuffer S) := by
    have h := foldl_equiv_join chunks initBuffer quiescent_init
    rwa [hS] at h
  have h2 : EquivSt (runFramer (S.map (fun b => [b]))) (addData initBuffer S) := by
    have h := foldl_equiv_join (S.map (fun b => [b])) initBuffer quiescent_init
    rwa [join_map_singleton] at h
  exact h1.1.trans h2.1.symm

theorem C5_witness :
    (runFramer [[0xD3, 0x00, 0x00], [0x47, 0xEA, 0x4B], [0xFF]]).messages =
      (runFramer (([0xD3, 0x00, 0x00, 0x47, 0xEA, 0x4B, 0xFF] : List Nat).map
        (fun b => [b]))).messages :=
  C5_chunking_invariance [[0xD3, 0x00, 0x00], [0x47, 0xEA, 0x4B], [0xFF]]
    [0xD3, 0x00, 0x00, 0x47, 0xEA, 0x4B, 0xFF] (by decide)

/-- C6: if the byte input contains no embedded valid RTCM3 frame (no
contiguous substring validates), the framer emits nothing; and after
every `add_data` call — on any byte input whatsoever, valid frames or
not — the internal buffer holds at most 1029 bytes. -/
theorem C6_no_frame_no_output_and_bounded (chunks : List (List Nat))
    (hbytes : ∀ c ∈ chunks, IsBytes c) :
    ((∀ m : List Nat, m <:+: chunks.flatten → (validate_message m).1 ≠ true) →
      (runFramer chunks).messages = []) ∧
    (runFramer chunks).buffer.length ≤ 1029 := by
  constructor
  · intro hnoframe
    rw [List.eq_nil_iff_forall_not_mem]
    intro m hm
    have hval := runFramer_messages_valid chunks initBuffer (by simp [initBuffer]) m hm
    rcases runFramer_messages_substring chunks initBuffer m hm with habs | hinf
    · simp [initBuffer] at habs
    · refine hnoframe m ?_ hval
      simpa [initBuffer] using hinf
  · have h := runFramer_buffer_bound chunks initBuffer
      (fun x hx => absurd hx (List.not_mem_nil x)) (by decide) hbytes
    exact le_trans h.1 (by omega)

theorem C6_witness :
    ((∀ m : List Nat, m <:+: ([[0x01, 0x02, 0x03]] : List (List Nat)).flatten →
        (validate_message m).1 ≠ true) →
      (runFramer [[0x01, 0x02, 0x03]]).messages = []) ∧
      (runFramer [[0x01, 0x02, 0x03]]).buffer.length ≤ 1029 :=
  C6_no_frame_no_output_and_bounded [[0x01, 0x02, 0x03]]
    (fun c hc => by
      fin_cases hc
      exact isBytes_of_all (by decide))

/-- C7: in every reachable server state, a GET request for a registered
mountpoint with no `Authorization` header is admitted (client
registered) if and only if the credential table is empty; and whenever
the table is non-empty, a request with no `Authorization` header, or
one whose header is empty, malformed or carries non-matching
credentials (`_verify_auth` returns `False`), receives
`401 Unauthorized` with `WWW-Authenticate: Basic realm="NTRIP"` and
the connection is closed without registration. -/
theorem C7_auth_iff_credentials (ops : List ServerOp)
    (decode : List Char → Option (List Char)) (request mp v : List Char)
    (rest : List (List Char)) (hne : request ≠ [])
    (hline : pySplitWs ((splitOnCRLF request).headD []) =
      "GET".data :: ('/' :: mp) :: v :: rest)
    (hmpne : mp ≠ []) (hmp : mp ∈ (applyOps ops).mountpoints) :
    (findAuthHeader (splitOnCRLF request) = none →
      (handleClient (applyOps ops) decode request = .registered mp ↔
        (applyOps ops).credentials = [])) ∧
    ((applyOps ops).credentials ≠ [] →
      (findAuthHeader (splitOnCRLF request) = none ∨
        ∃ h, findAuthHeader (splitOnCRLF request) = some h ∧
          (h = [] ∨ verify_auth (applyOps ops).credentials decode h = false)) →
      handleClient (applyOps ops) decode request = resp401) := by
  have hiff := reachable_auth_iff ops
  have hc := handleClient_get_mountpoint (applyOps ops) decode hne hline hmpne hmp
  constructor
  · intro hnone
    rw [hc]
    cases hra : (applyOps ops).require_auth with
    | false =>
      rw [if_neg (by simp)]
      have hcred : (applyOps ops).credentials = [] := by
        by_contra hcontra
        rw [hiff.mpr hcontra] at hra
        exact Bool.noConfusion hra
      simp [hcred]
    | true =>
      rw [if_pos rfl, hnone]
      have hneq : resp401 ≠ HandlerResult.registered mp := by
        simp [resp401]
      exact ⟨fun habs => absurd habs hneq,
        fun h => absurd h (by simpa using hiff.mp hra)⟩
  · intro hcred hbad
    have hra : (applyOps ops).require_auth = true := hiff.mpr hcred
    rw [hc, if_pos hra]
    rcases hbad with hnone | ⟨h, hsome, hbadh⟩
    · rw [hnone]
    · rw [hsome]
      rcases hbadh with h0 | hvf
      · exact if_pos (Or.inl h0)
      · exact if_pos (Or.inr (by simp [hvf]))

theorem C7_witness :
    (findAuthHeader (splitOnCRLF "GET /BASE HTTP/1.1\x0d\x0aHost: x\x0d\x0a\x0d\x0a".data) =
        none →
      (handleClient
          (applyOps [ServerOp.addMountpoint "BASE".data,
            ServerOp.setAuthentication "u".data "p".data])
          (fun _ => none) "GET /BASE HTTP/1.1\x0d\x0aHost: x\x0d\x0a\x0d\x0a".data =
          .registered "BASE".data ↔
        (applyOps [ServerOp.addMountpoint "BASE".data,
          ServerOp.setAuthentication "u".data "p".data]).credentials = [])) ∧
    ((applyOps [ServerOp.addMountpoint "BASE".data,
        ServerOp.setAuthentication "u".data "p".data]).credentials ≠ [] →
      (findAuthHeader (splitOnCRLF "GET /BASE HTTP/1.1\x0d\x0aHost: x\x0d\x0a\x0d\x0a".data) =
          none ∨
        ∃ h, findAuthHeader
            (splitOnCRLF "GET /BASE HTTP/1.1\x0d\x0aHost: x\x0d\x0a\x0d\x0a".data) =
            some h ∧
          (h = [] ∨ verify_auth
            (applyOps [ServerOp.addMountpoint "BASE".data,
              ServerOp.setAuthentication "u".data "p".data]).credentials
            (fun _ => none) h = false)) →
      handleClient
          (applyOps [ServerOp.addMountpoint "BASE".data,
            ServerOp.setAuthentication "u".data "p".data])
          (fun _ => none) "GET /BASE HTTP/1.1\x0d\x0aHost: x\x0d\x0a\x0d\x0a".data =
        resp401) :=
  C7_auth_iff_credentials
    [ServerOp.addMountpoint "BASE".data, ServerOp.setAuthentication "u".data "p".data]
    (fun _ => none) "GET /BASE HTTP/1.1\x0d\x0aHost: x\x0d\x0a\x0d\x0a".data
    "BASE".data "HTTP/1.1".data [] (by decide) (by decide) (by decide) (by decide)

/-- C8 counterexample: the handler never checks that the header section
is terminated: the request `GET /BASE HTTP/1.1` contains no CRLF CRLF
at all, yet with mountpoint `BASE` registered and no credentials it is
admitted (200 OK, client registered) instead of receiving the
`400 Bad Request` the claim requires. -/
theorem C8_counterexample :
    ¬ ("\x0d\x0a\x0d\x0a".data <:+: "GET /BASE HTTP/1.1".data) ∧
      handleClient ⟨["BASE".data], false, []⟩ (fun _ => none)
          "GET /BASE HTTP/1.1".data =
        .registered "BASE".data ∧
      HandlerResult.registered "BASE".data ≠
        .closedResponse 400 "Bad Request".data [] := by
  decide

/-- C8 (amended): the session handler responds `400 Bad Request` and
closes the connection when the request line splits into fewer than
three whitespace-separated tokens; it does not require the header
section to be terminated by an empty line — a request whose text ends
before CRLF CRLF is processed on the request line alone. -/
theorem C8_bad_request_line (st : ServerState)
    (decode : List Char → Option (List Char)) (request : List Char)
    (hne : request ≠ [])
    (htok : (pySplitWs ((splitOnCRLF request).headD [])).length < 3) :
    handleClient st decode request = .closedResponse 400 "Bad Request".data [] := by
  unfold handleClient
  rw [if_neg hne]
  simp only []
  rw [if_pos htok]

theorem C8_witness :
    handleClient initServer (fun _ => none) "GET /x\x0d\x0a".data =
      .closedResponse 400 "Bad Request".data [] :=
  C8_bad_request_line initServer (fun _ => none) "GET /x\x0d\x0a".data
    (by decide) (by decide)

/-- C9: a subscriber whose send fails during a broadcast (it passes the
mountpoint filter and `send_data` returns `False`) is no longer in the
client list when `broadcast_rtcm` returns, and no sequence of later
broadcasts ever attempts to send to it again. -/
theorem C9_failed_subscriber_removed (clients : List Client) (data : List Nat)
    (mp : Option (List Char)) (c : Client) (hnd : clients.Nodup)
    (hdata : data ≠ []) (hatt : c ∈ attempted clients mp)
    (hfail : c.sendOk = false) :
    c ∉ broadcast clients data mp ∧
      ∀ (seq : List (List Nat × Option (List Char))) (mp' : Option (List Char)),
        c ∉ attempted (runBroadcasts (broadcast clients data mp) seq) mp' := by
  have hout : c ∉ broadcast clients data mp :=
    broadcast_removes_failed hnd hatt hfail hdata
  refine ⟨hout, fun seq mp' => notMem_attempted (runBroadcasts_not_mem seq _ hout) mp'⟩

theorem C9_witness :
    (⟨0, "BASE".data, false⟩ : Client) ∉
        broadcast [⟨0, "BASE".data, false⟩, ⟨1, "BASE".data, true⟩] [0xD3] none ∧
      ∀ (seq : List (List Nat × Option (List Char))) (mp' : Option (List Char)),
        (⟨0, "BASE".data, false⟩ : Client) ∉
          attempted (runBroadcasts
            (broadcast [⟨0, "BASE".data, false⟩, ⟨1, "BASE".data, true⟩] [0xD3] none)
            seq) mp' :=
  C9_failed_subscriber_removed [⟨0, "BASE".data, false⟩, ⟨1, "BASE".data, true⟩]
    [0xD3] none ⟨0, "BASE".data, false⟩ (by decide) (by decide) (by decide) rfl

/-- C10: `validate_message` returns a triple without raising on every
byte sequence (the checked-indexing model never fails and agrees with
the total function); the returned `message_length` lies in `0..1023`;
and an input shorter than 6 bytes or not starting with `0xD3` yields
exactly `(False, 0, 0)`. -/
theorem C10_validate_total_and_bounded (data : List Nat) (hbytes : IsBytes data) :
    validate_messageM data = some (validate_message data) ∧
      (validate_message data).2.2 ≤ 1023 ∧
      ((data.length < 6 ∨ data.getD 0 0 ≠ 0xD3) →
        validate_message data = (false, 0, 0)) := by
  refine ⟨validate_messageM_eq data, validate_len_le hbytes, ?_⟩
  intro hcase
  by_cases h6 : data.length < 6
  · exact validate_short h6
  · rcases hcase with h | h
    · exact absurd h h6
    · exact validate_headless h6 h

theorem C10_witness :
    validate_messageM [0xD3, 0x00, 0x00, 0x47, 0xEA, 0x4B] =
        some (validate_message [0xD3, 0x00, 0x00, 0x47, 0xEA, 0x4B]) ∧
      (validate_message [0xD3, 0x00, 0x00, 0x47, 0xEA, 0x4B]).2.2 ≤ 1023 ∧
      ((([0xD3, 0x00, 0x00, 0x47, 0xEA, 0x4B] : List Nat).length < 6 ∨
          ([0xD3, 0x00, 0x00, 0x47, 0xEA, 0x4B] : List Nat).getD 0 0 ≠ 0xD3) →
        validate_message [0xD3, 0x00, 0x00, 0x47, 0xEA, 0x4B] = (false, 0, 0)) :=
  C10_validate_total_and_bounded [0xD3, 0x00, 0x00, 0x47, 0xEA, 0x4B]
    (isBytes_of_all (by decide))

end LC29H
